import Mathlib

/-!
Shallow embedding of the `recipe-api` Django application
(`app/core/models.py`, `app/recipe/serializers.py`, `app/recipe/views.py`)
and proofs of the specification claims about it.

Conventions:
  * database rows are records over `Nat`/`Int`/`String`;
  * the `DecimalField(5,2)` price is modelled as an integer number of cents;
  * autoincrement primary keys are modelled by an explicit `nextId` counter;
  * Django querysets become Lean lists, `order_by` becomes an insertion sort;
  * fallible operations return `Except String _` or a numeric HTTP status.
-/

namespace RecipeApi

/-! ### `os.path` helpers used by `core/models.py` (posix semantics) -/

/-- Python `os.path.join(a, b)` for two components, posix rules: an absolute second
component replaces the first; otherwise a separator is inserted unless the
first component is empty or already ends with one. -/
def os_path_join2 (a b : String) : String :=
  if b.data.head? = some '/' then b
  else if a = "" ∨ a.data.getLast? = some '/' then a ++ b
  else a ++ "/" ++ b

/-- Python `os.path.join(a, b, c)`. -/
def os_path_join3 (a b c : String) : String :=
  os_path_join2 (os_path_join2 a b) c

/-- The extension part of `os.path.splitext`, on the character list.
The basename is the part after the last `'/'`; the extension starts at the
last `'.'` of the basename, unless every character of the basename before
that dot is itself a dot (so `.bashrc` has no extension). -/
def splitextExtList (l : List Char) : List Char :=
  let base := (l.reverse.takeWhile (fun c => c ≠ '/')).reverse
  let rev := base.reverse
  let afterDot := rev.takeWhile (fun c => c ≠ '.')
  if afterDot.length = rev.length then []
  else
    let pre := rev.drop (afterDot.length + 1)
    if pre.all (fun c => c = '.') then [] else '.' :: afterDot.reverse

/-- The extension part of `os.path.splitext(filename)`. -/
def splitextExt (s : String) : String :=
  ⟨splitextExtList s.data⟩

/-- Embeds `core.models.recipe_image_file_path`, with the freshly generated
`uuid.uuid4()` string passed in as the `uuidStr` argument. -/
def recipe_image_file_path (uuidStr filename : String) : String :=
  let extension := splitextExt filename
  let newFilename := uuidStr ++ extension
  os_path_join3 "uploads" "recipe" newFilename

/-! ### `UserManager` (`core/models.py`) -/

/-- A stored `core.models.User` row.  The `password` field holds whatever
`set_password` stored (a hash), never the raw password. -/
structure DjangoUser where
  email : String
  password : String
  name : String
  is_active : Bool
  is_staff : Bool
  is_superuser : Bool
  deriving Repr, DecidableEq

/-- Django's `BaseUserManager.normalize_email`: strip outer whitespace and
lowercase the domain part (after the last `'@'`); an address without `'@'`
is returned unchanged. -/
def normalize_email (email : String) : String :=
  let s := email.trim
  match (s.data.reverse.takeWhile (fun c => c ≠ '@')).length with
  | n =>
    if n = s.data.length then email
    else
      let namePart := s.data.take (s.data.length - n - 1)
      let domainPart := s.data.drop (s.data.length - n)
      ⟨namePart ++ '@' :: domainPart.map Char.toLower⟩

/-- Embeds `UserManager.create_user(email, password=None, **extra_fields)`.
`hash` stands for Django's `set_password` (one-way hashing, applied even to
a `None` password); `name` stands for the `extra_fields`. -/
def create_user (hash : Option String → String) (email : String)
    (password : Option String := none) (name : String := "") :
    Except String DjangoUser :=
  if email = "" then
    Except.error "User must have an email address."
  else
    Except.ok
      { email := normalize_email email
        password := hash password
        name := name
        is_active := true
        is_staff := false
        is_superuser := false }

/-- Embeds `UserManager.create_superuser(email, password)`: an ordinary
`create_user` with `is_staff` and `is_superuser` then set to `True`. -/
def create_superuser (hash : Option String → String) (email password : String) :
    Except String DjangoUser :=
  match create_user hash email (some password) with
  | Except.error e => Except.error e
  | Except.ok u => Except.ok { u with is_staff := true, is_superuser := true }

/-! ### Data model rows (`core/models.py`) -/

/-- A `core.models.Tag` row: `user` foreign key and `name`. -/
structure TagRow where
  id : Nat
  user : Nat
  name : String
  deriving Repr, DecidableEq

/-- A `core.models.Ingredient` row: `user` foreign key and `name`. -/
structure IngredientRow where
  id : Nat
  user : Nat
  name : String
  deriving Repr, DecidableEq

/-- A `core.models.Recipe` row.  `price` (a `DecimalField(5,2)`) is an exact
integer number of cents; `tags`/`ingredients` are the many-to-many id sets
(Django `add` never stores a pair twice); `image` is the stored path. -/
structure Recipe where
  id : Nat
  user : Nat
  title : String
  description : String
  time_minutes : Int
  price : Int
  link : String
  tags : List Nat
  ingredients : List Nat
  image : Option String
  deriving Repr, DecidableEq

/-- The tag table together with its autoincrement counter. -/
structure TagDb where
  rows : List TagRow
  nextId : Nat
  deriving Repr, DecidableEq

/-! ### `recipe/serializers.py` -/

/-- A recipe write payload as sent by a client.  Each field is `none` when
absent from the request body.  `user?` and `ingredients?` can be sent but
correspond to nothing writable in the source `RecipeSerializer`
(`Meta.fields = ['id', 'title', 'time_minutes', 'price', 'link', 'tags']`,
no `ingredients` field, `user` never listed); embedded tag objects carry
only a `name`, so the tag list is a list of names. -/
structure RecipeWritePayload where
  title? : Option String := none
  time_minutes? : Option Int := none
  price? : Option Int := none
  link? : Option String := none
  description? : Option String := none
  tags? : Option (List String) := none
  ingredients? : Option (List String) := none
  user? : Option Nat := none
  deriving Repr, DecidableEq

/-- The serializer's validated data: only the writable fields of the source
`RecipeDetailSerializer` survive (the `RecipeSerializer` fields plus
`description`; `id` is read-only); unknown keys such as `user` or
`ingredients` are silently dropped by DRF deserialization. -/
structure RecipeValidatedData where
  title? : Option String
  time_minutes? : Option Int
  price? : Option Int
  link? : Option String
  description? : Option String
  tags? : Option (List String)
  deriving Repr, DecidableEq

/-- DRF `to_internal_value` for the source `RecipeDetailSerializer` (the
class used for create/update actions): keep the declared writable fields,
drop everything else. -/
def recipeSerializerValidate (p : RecipeWritePayload) : RecipeValidatedData :=
  { title? := p.title?
    time_minutes? := p.time_minutes?
    price? := p.price?
    link? := p.link?
    description? := p.description?
    tags? := p.tags? }

/-- Embeds `Tag.objects.get_or_create(user=u, name=n)`: return the first matching
row, or insert a fresh row with the next id. -/
def tag_get_or_create (u : Nat) (n : String) (db : TagDb) : TagRow × TagDb :=
  match db.rows.find? (fun x => x.user = u ∧ x.name = n) with
  | some t => (t, db)
  | none =>
      let t : TagRow := ⟨db.nextId, u, n⟩
      (t, ⟨db.rows ++ [t], db.nextId + 1⟩)

/-- Django many-to-many `add`: inserting an id already present is a no-op. -/
def m2mAdd (s : List Nat) (i : Nat) : List Nat :=
  if i ∈ s then s else s ++ [i]

/-- The loop body of `RecipeSerializer.create`: for each embedded tag name,
`get_or_create` it for the authenticated user and `recipe.tags.add` it. -/
def attachTags (u : Nat) (names : List String) (acc : List Nat) (db : TagDb) :
    List Nat × TagDb :=
  match names with
  | [] => (acc, db)
  | n :: rest =>
      let (t, db') := tag_get_or_create u n db
      attachTags u rest (m2mAdd acc t.id) db'

/-- Embeds `RecipeSerializer.create(validated_data)` as called through
`perform_create`'s `serializer.save(user=self.request.user)`: pop the tags
(default `[]`), create the recipe row owned by the authenticated user, then
get-or-create-and-attach each embedded tag name.  Missing scalar fields
take the model defaults.  Returns the created recipe, its fresh id and the
updated tag table. -/
def RecipeSerializer_create (authUser : Nat) (p : RecipeWritePayload)
    (newRecipeId : Nat) (db : TagDb) : Recipe × TagDb :=
  let vd := recipeSerializerValidate p
  let tagNames := vd.tags?.getD []
  let (tagIds, db') := attachTags authUser tagNames [] db
  ({ id := newRecipeId
     user := authUser
     title := vd.title?.getD ""
     description := vd.description?.getD ""
     time_minutes := vd.time_minutes?.getD 0
     price := vd.price?.getD 0
     link := vd.link?.getD ""
     tags := tagIds
     ingredients := []
     image := none }, db')

/-- The update path of the source `RecipeSerializer`: the class defines no
`update`, so DRF's default `ModelSerializer.update` runs.  Its
`raise_errors_on_nested_writes` raises an assertion error whenever the
validated data still contains a writable nested field (here `tags`);
otherwise each remaining validated scalar is `setattr`-ed and the instance
saved, touching neither relation set. -/
def RecipeSerializer_update (r : Recipe) (p : RecipeWritePayload) :
    Except String Recipe :=
  let vd := recipeSerializerValidate p
  if vd.tags?.isSome then
    Except.error "The .update() method does not support writable nested fields by default."
  else
    Except.ok
      { r with
        title := vd.title?.getD r.title
        time_minutes := vd.time_minutes?.getD r.time_minutes
        price := vd.price?.getD r.price
        link := vd.link?.getD r.link
        description := vd.description?.getD r.description }

/-! ### `recipe/views.py` -/

/-- Embeds `RecipeViewSet.get_queryset`: recipes of the authenticated user,
`order_by('-id')` (descending id). -/
def RecipeViewSet_get_queryset (user : Nat) (db : List Recipe) : List Recipe :=
  (db.filter (fun r => r.user = user)).insertionSort (fun a b => b.id ≤ a.id)

/-- The recipe list endpoint.  The request may carry `tags` and
`ingredients` query parameters (comma-separated id lists), but the source
`get_queryset` never reads `self.request.query_params`, so they are
unused. -/
def RecipeViewSet_list (user : Nat) (tagsQP ingredientsQP : Option String)
    (db : List Recipe) : List Recipe :=
  RecipeViewSet_get_queryset user db

/-- DRF `get_object`: look the pk up inside `get_queryset` (hence only
among the caller's own rows); `none` surfaces as HTTP 404. -/
def RecipeViewSet_get_object (user pk : Nat) (db : List Recipe) :
    Option Recipe :=
  (RecipeViewSet_get_queryset user db).find? (fun r => r.id = pk)

/-- The recipe detail (retrieve) endpoint: HTTP status only. -/
def RecipeViewSet_retrieve (user pk : Nat) (db : List Recipe) : Nat :=
  match RecipeViewSet_get_object user pk db with
  | none => 404
  | some _ => 200

/-- The recipe delete endpoint: 404 leaves the table untouched, otherwise
the row is removed (204). -/
def RecipeViewSet_destroy (user pk : Nat) (db : List Recipe) :
    Nat × List Recipe :=
  match RecipeViewSet_get_object user pk db with
  | none => (404, db)
  | some r => (204, db.filter (fun x => x.id ≠ r.id))

/-- The recipe update endpoint (PATCH/PUT): 404 if the row is not in the
caller's queryset; otherwise the serializer update runs — DRF's nested-write
assertion error surfaces as HTTP 500, success as 200 with the row
replaced. -/
def RecipeViewSet_update (user pk : Nat) (p : RecipeWritePayload)
    (db : List Recipe) : Nat × List Recipe :=
  match RecipeViewSet_get_object user pk db with
  | none => (404, db)
  | some r =>
      match RecipeSerializer_update r p with
      | Except.error _ => (500, db)
      | Except.ok r' => (200, db.map (fun x => if x.id = r.id then r' else x))

/-- The recipe create endpoint: `perform_create` saves with
`user=self.request.user`. -/
def RecipeViewSet_create (authUser : Nat) (p : RecipeWritePayload)
    (newRecipeId : Nat) (db : List Recipe) (tagDb : TagDb) :
    Recipe × List Recipe × TagDb :=
  let (r, tagDb') := RecipeSerializer_create authUser p newRecipeId tagDb
  (r, db ++ [r], tagDb')

/-- Code-point lexicographic `≤` on character lists (the collation behind
`order_by('-name')`). -/
def charListLe : List Char → List Char → Bool
  | [], _ => true
  | _ :: _, [] => false
  | a :: as, b :: bs =>
      if a.val = b.val then charListLe as bs else decide (a.val < b.val)

/-- Code-point lexicographic `≤` on strings. -/
def strLe (a b : String) : Bool :=
  charListLe a.data b.data

/-- Embeds `BaseRecipeAttrViewSet.get_queryset` at the `TagViewSet`: tags of the
authenticated user, `order_by('-name')` (descending name). -/
def TagViewSet_get_queryset (user : Nat) (db : List TagRow) : List TagRow :=
  (db.filter (fun t => t.user = user)).insertionSort
    (fun a b => strLe b.name a.name = true)

/-- The tag list endpoint.  An `assigned_only` query parameter may be sent,
but the source `get_queryset` never reads it. -/
def TagViewSet_list (user : Nat) (assignedOnlyQP : Option String)
    (tagDb : List TagRow) (recipeDb : List Recipe) : List TagRow :=
  TagViewSet_get_queryset user tagDb

/-- DRF `get_object` for tags. -/
def TagViewSet_get_object (user pk : Nat) (db : List TagRow) : Option TagRow :=
  (TagViewSet_get_queryset user db).find? (fun t => t.id = pk)

/-- The tag detail endpoint: HTTP status only. -/
def TagViewSet_retrieve (user pk : Nat) (db : List TagRow) : Nat :=
  match TagViewSet_get_object user pk db with
  | none => 404
  | some _ => 200

/-- The tag delete endpoint. -/
def TagViewSet_destroy (user pk : Nat) (db : List TagRow) :
    Nat × List TagRow :=
  match TagViewSet_get_object user pk db with
  | none => (404, db)
  | some t => (204, db.filter (fun x => x.id ≠ t.id))

/-- The tag update endpoint: `TagSerializer` has writable field `name`
only (`id` read-only, `user` not listed), so a found row gets its name
replaced when the payload carries one. -/
def TagViewSet_update (user pk : Nat) (newName? : Option String)
    (db : List TagRow) : Nat × List TagRow :=
  match TagViewSet_get_object user pk db with
  | none => (404, db)
  | some t =>
      let t' := { t with name := newName?.getD t.name }
      (200, db.map (fun x => if x.id = t.id then t' else x))

/-- Embeds `BaseRecipeAttrViewSet.get_queryset` at the `IngredientViewSet`. -/
def IngredientViewSet_get_queryset (user : Nat) (db : List IngredientRow) :
    List IngredientRow :=
  (db.filter (fun i => i.user = user)).insertionSort
    (fun a b => strLe b.name a.name = true)

/-- The ingredient list endpoint (`assigned_only` unread, as for tags). -/
def IngredientViewSet_list (user : Nat) (assignedOnlyQP : Option String)
    (ingDb : List IngredientRow) (recipeDb : List Recipe) :
    List IngredientRow :=
  IngredientViewSet_get_queryset user ingDb

/-- DRF `get_object` for ingredients. -/
def IngredientViewSet_get_object (user pk : Nat) (db : List IngredientRow) :
    Option IngredientRow :=
  (IngredientViewSet_get_queryset user db).find? (fun i => i.id = pk)

/-- The ingredient detail endpoint: HTTP status only. -/
def IngredientViewSet_retrieve (user pk : Nat) (db : List IngredientRow) : Nat :=
  match IngredientViewSet_get_object user pk db with
  | none => 404
  | some _ => 200

/-- The ingredient delete endpoint. -/
def IngredientViewSet_destroy (user pk : Nat) (db : List IngredientRow) :
    Nat × List IngredientRow :=
  match IngredientViewSet_get_object user pk db with
  | none => (404, db)
  | some i => (204, db.filter (fun x => x.id ≠ i.id))

/-- Modelled from the spec: `IngredientSerializer` is imported by
`recipe/views.py` and the tests but missing from the source tree; per the
data-model table it mirrors `TagSerializer` (writable `name`, read-only
`id`, owner never writable).  The ingredient update endpoint built on it. -/
def IngredientViewSet_update (user pk : Nat) (newName? : Option String)
    (db : List IngredientRow) : Nat × List IngredientRow :=
  match IngredientViewSet_get_object user pk db with
  | none => (404, db)
  | some i =>
      let i' := { i with name := newName?.getD i.name }
      (200, db.map (fun x => if x.id = i.id then i' else x))

/-! ### Image upload (`RecipeViewSet.upload_image`) -/

/-- An uploaded file: its client-supplied name and raw bytes. -/
structure ImagePayload where
  filename : String
  content : String
  deriving Repr, DecidableEq

/-- Modelled from the spec: `RecipeImageSerializer` is referenced by
`RecipeViewSet.get_serializer_class` but missing from the source tree.
Per §4.3 it validates the payload as a well-formed image before anything
is persisted; image well-formedness itself is decided by the imaging
library, abstracted here as the `isImage` predicate. -/
def RecipeImageSerializer_is_valid (isImage : ImagePayload → Bool)
    (p : ImagePayload) : Bool :=
  isImage p

/-- Modelled from the spec: `RecipeImageSerializer.save` (missing from the
source tree) stores the upload at the path built by
`recipe_image_file_path` from a fresh uuid and the uploaded file's name,
updating only the recipe's `image` field. -/
def RecipeImageSerializer_save (r : Recipe) (p : ImagePayload)
    (uuidStr : String) : Recipe :=
  { r with image := some (recipe_image_file_path uuidStr p.filename) }

/-- Embeds `RecipeViewSet.upload_image`: resolve the recipe through `get_object`
(404 if not owned), validate the payload, save on success (200) and return
the errors otherwise (400) with nothing persisted. -/
def RecipeViewSet_upload_image (isImage : ImagePayload → Bool)
    (user pk : Nat) (p : ImagePayload) (uuidStr : String)
    (db : List Recipe) : Nat × List Recipe :=
  match RecipeViewSet_get_object user pk db with
  | none => (404, db)
  | some r =>
      if RecipeImageSerializer_is_valid isImage p then
        let r' := RecipeImageSerializer_save r p uuidStr
        (200, db.map (fun x => if x.id = r.id then r' else x))
      else
        (400, db)

/-! ### Claims about user creation (`UserManager`) -/

/-- Claim C9: for every user created via `create_user` with a non-empty email,
the stored login email is the normalized form of the supplied email and
the supplied password is persisted only through the one-way `set_password`
hash (modelled by the `hash` parameter), never as the raw value;
`create_superuser` yields the very same user with `is_staff` and
`is_superuser` additionally set. -/
theorem claim_C9 (hash : Option String → String) (email : String)
    (password : Option String) (name spw : String) (h : email ≠ "") :
    (∃ u, create_user hash email password name = Except.ok u
        ∧ u.email = normalize_email email ∧ u.password = hash password)
    ∧ (∀ u, create_user hash email (some spw) "" = Except.ok u →
        create_superuser hash email spw
          = Except.ok { u with is_staff := true, is_superuser := true }) := by
  have hcu : create_user hash email password name
      = Except.ok
          { email := normalize_email email, password := hash password
            name := name, is_active := true, is_staff := false
            is_superuser := false } := by
    simp [create_user, h]
  have hcs : create_user hash email (some spw) ""
      = Except.ok
          { email := normalize_email email, password := hash (some spw)
            name := "", is_active := true, is_staff := false
            is_superuser := false } := by
    simp [create_user, h]
  refine ⟨⟨_, hcu, rfl, rfl⟩, ?_⟩
  intro u hu
  rw [hcs] at hu
  cases hu
  simp [create_superuser, hcs]

/-- Witness for C9 at a concrete input: email `USER@EXAMPLE.Com`. -/
theorem claim_C9_witness :
    ∃ u, create_user (fun p => "pbkdf2$" ++ toString p) "USER@EXAMPLE.Com"
          (some "testpass123") "Test Name" = Except.ok u
        ∧ u.email = normalize_email "USER@EXAMPLE.Com"
        ∧ u.password = (fun p => "pbkdf2$" ++ toString p) (some "testpass123") :=
  (claim_C9 (fun p => "pbkdf2$" ++ toString p) "USER@EXAMPLE.Com"
    (some "testpass123") "Test Name" "testpass123" (by decide)).1

/-- Claim C10: `create_user` fails with the `ValueError` message exactly when the
supplied email is empty (no user record is produced then), and the password
argument may be omitted (`None`) with the user still created. -/
theorem claim_C10 (hash : Option String → String) (email : String)
    (password : Option String) (name : String) :
    ((create_user hash email password name
        = Except.error "User must have an email address.") ↔ email = "")
    ∧ (email ≠ "" → ∃ u, create_user hash email none name = Except.ok u) := by
  by_cases h : email = "" <;> simp [create_user, h]

/-- Witness for C10 at a concrete input: non-empty email, omitted password. -/
theorem claim_C10_witness :
    ∃ u, create_user (fun _ => "hashed") "user@example.com" none ""
      = Except.ok u :=
  (claim_C10 (fun _ => "hashed") "user@example.com" none "").2 (by decide)

/-! ### Claims about recipe update and list filtering (source behaviour) -/

/-- Claim C2 fails on the source code: `RecipeSerializer` defines no `update` and
no `ingredients` field, so PATCHing `tags: []` hits DRF's nested-write
assertion (HTTP 500) instead of clearing the tag set, and PATCHing
`ingredients: []` returns 200 with the ingredient associations untouched.
Evaluated here on a recipe owned by user 10 with tag 7 and ingredient 5. -/
theorem claim_C2 :
    RecipeViewSet_update 10 1 { tags? := some [] }
        [⟨1, 10, "R", "", 5, 100, "", [7], [5], none⟩]
      = (500, [⟨1, 10, "R", "", 5, 100, "", [7], [5], none⟩])
    ∧ RecipeViewSet_update 10 1 { ingredients? := some [] }
        [⟨1, 10, "R", "", 5, 100, "", [7], [5], none⟩]
      = (200, [⟨1, 10, "R", "", 5, 100, "", [7], [5], none⟩]) := by
  constructor <;> rfl

/-- Claim C3 fails on the source code: `RecipeViewSet.get_queryset` never reads
the `tags`/`ingredients` query parameters, so filtering by `tags=1,2`
still returns recipe 3, which carries no tag at all. -/
theorem claim_C3 :
    RecipeViewSet_list 10 (some "1,2") none
        [⟨1, 10, "R1", "", 5, 100, "", [1], [], none⟩,
         ⟨2, 10, "R2", "", 5, 100, "", [2], [], none⟩,
         ⟨3, 10, "R3", "", 5, 100, "", [], [], none⟩]
      = [⟨3, 10, "R3", "", 5, 100, "", [], [], none⟩,
         ⟨2, 10, "R2", "", 5, 100, "", [2], [], none⟩,
         ⟨1, 10, "R1", "", 5, 100, "", [1], [], none⟩] := by
  rfl

/-- Claim C8 fails on the source code: `BaseRecipeAttrViewSet.get_queryset` never
reads the `assigned_only` query parameter, so the tag/ingredient listing
with `assigned_only=1` still returns the tag (resp. ingredient) with id 2,
which is attached to no recipe. -/
theorem claim_C8 :
    TagViewSet_list 10 (some "1")
        [⟨1, 10, "Tag 1"⟩, ⟨2, 10, "Tag 2"⟩]
        [⟨1, 10, "R", "", 5, 100, "", [1], [], none⟩]
      = [⟨2, 10, "Tag 2"⟩, ⟨1, 10, "Tag 1"⟩]
    ∧ IngredientViewSet_list 10 (some "1")
        [⟨1, 10, "Ing 1"⟩, ⟨2, 10, "Ing 2"⟩]
        [⟨1, 10, "R", "", 5, 100, "", [], [1], none⟩]
      = [⟨2, 10, "Ing 2"⟩, ⟨1, 10, "Ing 1"⟩] := by
  constructor <;> decide

/-! ### Claims about ownership of writes and image upload -/

/-- Claim C5: a `user` key in a recipe write payload is silently ignored — it
changes nothing about the outcome of a create or an update (in particular
it raises no error of its own) — the owner of a created recipe is always
the authenticated requester, and no successful update ever changes the
owner of an existing recipe. -/
theorem claim_C5 (authUser uVal newId : Nat) (p : RecipeWritePayload)
    (tagDb : TagDb) (r : Recipe) :
    (RecipeSerializer_create authUser p newId tagDb).1.user = authUser
    ∧ RecipeSerializer_create authUser { p with user? := some uVal } newId tagDb
        = RecipeSerializer_create authUser { p with user? := none } newId tagDb
    ∧ RecipeSerializer_update r { p with user? := some uVal }
        = RecipeSerializer_update r { p with user? := none }
    ∧ (∀ r', RecipeSerializer_update r p = Except.ok r' → r'.user = r.user) := by
  refine ⟨rfl, rfl, rfl, ?_⟩
  intro r' h
  unfold RecipeSerializer_update at h
  by_cases htags : (recipeSerializerValidate p).tags?.isSome = true
  · simp [htags] at h
  · simp [htags] at h
    rw [← h]

/-- Witness for C5: a title-only PATCH on a recipe owned by user 10 keeps
owner 10. -/
theorem claim_C5_witness :
    (⟨1, 10, "New", "", 5, 100, "", [7], [5], none⟩ : Recipe).user
      = (⟨1, 10, "R", "", 5, 100, "", [7], [5], none⟩ : Recipe).user :=
  (claim_C5 10 99 0 { title? := some "New" } ⟨[], 0⟩
      ⟨1, 10, "R", "", 5, 100, "", [7], [5], none⟩).2.2.2
    ⟨1, 10, "New", "", 5, 100, "", [7], [5], none⟩ (by rfl)

/-- Claim C6: on an image upload for a recipe the caller owns, a payload that is
not a well-formed image is rejected with HTTP 400 and the store — hence
the recipe and its previously stored image — is left untouched, while a
well-formed payload yields HTTP 200. -/
theorem claim_C6 (isImage : ImagePayload → Bool) (user pk : Nat)
    (db : List Recipe) (r : Recipe) (p q : ImagePayload) (uuidStr : String)
    (hr : RecipeViewSet_get_object user pk db = some r)
    (hbad : isImage p = false) (hgood : isImage q = true) :
    RecipeViewSet_upload_image isImage user pk p uuidStr db = (400, db)
    ∧ (RecipeViewSet_upload_image isImage user pk q uuidStr db).1 = 200 := by
  unfold RecipeViewSet_upload_image RecipeImageSerializer_is_valid
  rw [hr]
  simp [hbad, hgood]

/-- Witness for C6: the literal payload `"Not an image"` is rejected with
400 and the stored prior image survives; a well-formed payload gets 200. -/
theorem claim_C6_witness :
    RecipeViewSet_upload_image (fun pl => pl.content != "Not an image") 10 1
        ⟨"bad.jpg", "Not an image"⟩ "3f2a"
        [⟨1, 10, "R", "", 5, 100, "", [], [], some "uploads/recipe/old.jpg"⟩]
      = (400, [⟨1, 10, "R", "", 5, 100, "", [], [], some "uploads/recipe/old.jpg"⟩])
    ∧ (RecipeViewSet_upload_image (fun pl => pl.content != "Not an image") 10 1
        ⟨"ok.jpg", "jpegbytes"⟩ "3f2a"
        [⟨1, 10, "R", "", 5, 100, "", [], [], some "uploads/recipe/old.jpg"⟩]).1
      = 200 :=
  claim_C6 (fun pl => pl.content != "Not an image") 10 1
    [⟨1, 10, "R", "", 5, 100, "", [], [], some "uploads/recipe/old.jpg"⟩]
    ⟨1, 10, "R", "", 5, 100, "", [], [], some "uploads/recipe/old.jpg"⟩
    ⟨"bad.jpg", "Not an image"⟩ ⟨"ok.jpg", "jpegbytes"⟩ "3f2a"
    (by rfl) (by decide) (by decide)

/-! ### Claim C7: stored image paths -/

theorem dropWhile_head_false {α} (p : α → Bool) :
    ∀ (l : List α) (a : α) (as : List α), l.dropWhile p = a :: as → p a = false := by
  intro l
  induction l with
  | nil => intro a as h; simp [List.dropWhile] at h
  | cons x xs ih =>
      intro a as h
      by_cases hx : p x = true
      · rw [List.dropWhile_cons_of_pos hx] at h
        exact ih a as h
      · rw [List.dropWhile_cons_of_neg hx] at h
        cases h
        exact Bool.eq_false_iff.mpr hx

/-- The extension computed by `splitextExt` is empty or starts with a dot. -/
theorem splitextExtList_shape (l : List Char) :
    splitextExtList l = [] ∨ ∃ tl, splitextExtList l = '.' :: tl := by
  unfold splitextExtList
  dsimp only
  split
  · exact Or.inl rfl
  · split
    · exact Or.inl rfl
    · exact Or.inr ⟨_, rfl⟩

/-- The extension computed by `splitextExt` is a suffix of the filename. -/
theorem splitextExtList_suffix (l : List Char) :
    ∃ pre, l = pre ++ splitextExtList l := by
  have hXD : l = (l.reverse.dropWhile (fun c => c ≠ '/')).reverse
      ++ (l.reverse.takeWhile (fun c => c ≠ '/')).reverse := by
    conv_lhs => rw [← l.reverse_reverse]
    conv_lhs =>
      rw [← List.takeWhile_append_dropWhile (p := fun c => decide (c ≠ '/'))
        (l := l.reverse)]
    rw [List.reverse_append]
  unfold splitextExtList
  dsimp only
  split
  · exact ⟨l, by simp⟩
  · split
    · exact ⟨l, by simp⟩
    · rename_i hlen hdots
      set X := (l.reverse.takeWhile (fun c => c ≠ '/')).reverse.reverse with hX
      set afterDot := X.takeWhile (fun c => c ≠ '.') with hAD
      have hsplit : X = afterDot ++ X.dropWhile (fun c => c ≠ '.') :=
        (List.takeWhile_append_dropWhile _ _).symm
      have hdropne : X.dropWhile (fun c => c ≠ '.') ≠ [] := by
        intro hnil
        rw [hnil, List.append_nil] at hsplit
        exact hlen (by rw [← hsplit])
      obtain ⟨a, as, hcons⟩ := List.exists_cons_of_ne_nil hdropne
      have ha : a = '.' := by
        have := dropWhile_head_false (fun c => decide (c ≠ '.')) X a as hcons
        simpa using this
      subst ha
      refine ⟨(l.reverse.dropWhile (fun c => c ≠ '/')).reverse ++ as.reverse, ?_⟩
      have hbase : (l.reverse.takeWhile (fun c => c ≠ '/')).reverse
          = as.reverse ++ ('.' :: afterDot.reverse) := by
        have h1 : (l.reverse.takeWhile (fun c => c ≠ '/')).reverse = X.reverse := by
          rw [hX, List.reverse_reverse]
        rw [h1, hsplit, hcons, List.reverse_append, List.reverse_cons,
          List.append_assoc, List.singleton_append]
      calc l = (l.reverse.dropWhile (fun c => c ≠ '/')).reverse
                ++ (l.reverse.takeWhile (fun c => c ≠ '/')).reverse := hXD
        _ = (l.reverse.dropWhile (fun c => c ≠ '/')).reverse
                ++ (as.reverse ++ ('.' :: afterDot.reverse)) := by rw [hbase]
        _ = ((l.reverse.dropWhile (fun c => c ≠ '/')).reverse ++ as.reverse)
                ++ ('.' :: afterDot.reverse) := by rw [List.append_assoc]

theorem string_append_assoc (a b c : String) : a ++ b ++ c = a ++ (b ++ c) := by
  cases a with | mk la =>
  cases b with | mk lb =>
  cases c with | mk lc =>
  show String.mk (la ++ lb ++ lc) = String.mk (la ++ (lb ++ lc))
  rw [List.append_assoc]

/-- Claim C7: the stored image path is the `uploads/recipe/` directory joined
with the freshly generated uuid followed by exactly the extension that
`os.path.splitext` extracts from the original filename, which is a
trailing segment of that filename; nothing else of the user-supplied
filename reaches the stored path.  (A uuid4 string never starts with a
path separator, which is the stated hypothesis.) -/
theorem claim_C7 (u f : String) (h : u.data.head? ≠ some '/') :
    recipe_image_file_path u f = "uploads/recipe/" ++ u ++ splitextExt f
    ∧ ∃ stem : String, f = stem ++ splitextExt f := by
  constructor
  · have hhead : ¬ ((u ++ splitextExt f).data.head? = some '/') := by
      cases u with | mk ud =>
      cases ud with
      | nil =>
          show ¬ ((String.mk ([] ++ (splitextExt f).data)).data.head? = some '/')
          rcases splitextExtList_shape f.data with hnil | ⟨tl, htl⟩
          · simp [splitextExt, hnil]
          · simp [splitextExt, htl]
      | cons c cs =>
          show ¬ ((String.mk ((c :: cs) ++ (splitextExt f).data)).data.head? = some '/')
          simp only [List.cons_append, List.head?_cons]
          intro hc
          exact h hc
    show os_path_join2 (os_path_join2 "uploads" "recipe") (u ++ splitextExt f)
      = "uploads/recipe/" ++ u ++ splitextExt f
    have h12 : os_path_join2 "uploads" "recipe" = "uploads/recipe" := rfl
    rw [h12]
    unfold os_path_join2
    rw [if_neg hhead, if_neg (by decide)]
    have hsl : "uploads/recipe" ++ "/" = "uploads/recipe/" := rfl
    rw [hsl, ← string_append_assoc]
  · obtain ⟨pre, hpre⟩ := splitextExtList_suffix f.data
    refine ⟨String.mk pre, ?_⟩
    cases f with | mk fd =>
    show String.mk fd = String.mk (pre ++ splitextExtList fd)
    rw [← hpre]

/-- Witness for C7 at uuid `3f2a` and filename `photo.jpg`. -/
theorem claim_C7_witness :
    recipe_image_file_path "3f2a" "photo.jpg"
      = "uploads/recipe/" ++ "3f2a" ++ splitextExt "photo.jpg"
    ∧ ∃ stem : String, "photo.jpg" = stem ++ splitextExt "photo.jpg" :=
  claim_C7 "3f2a" "photo.jpg" (by decide)

/-! ### Claim C4: ownership scoping -/

theorem mem_sortFilter {α} (q : α → α → Prop) [DecidableRel q]
    (pred : α → Bool) (db : List α) (x : α) :
    x ∈ (db.filter pred).insertionSort q ↔ x ∈ db ∧ pred x = true := by
  rw [(List.perm_insertionSort q (db.filter pred)).mem_iff, List.mem_filter]

theorem recipe_queryset_other_user (u1 : Nat) (db : List Recipe) (r : Recipe)
    (hu : r.user ≠ u1) : r ∉ RecipeViewSet_get_queryset u1 db := by
  intro hmem
  rw [RecipeViewSet_get_queryset, mem_sortFilter] at hmem
  exact hu (by simpa using hmem.2)

theorem recipe_get_object_other_user (u1 : Nat) (db : List Recipe) (r : Recipe)
    (hr : r ∈ db) (hu : r.user ≠ u1)
    (hids : (db.map (fun x => x.id)).Nodup) :
    RecipeViewSet_get_object u1 r.id db = none := by
  rw [RecipeViewSet_get_object]
  rw [List.find?_eq_none]
  intro x hx hpx
  rw [RecipeViewSet_get_queryset, mem_sortFilter] at hx
  have hxid : x.id = r.id := by simpa using hpx
  have hxr : x = r := List.inj_on_of_nodup_map hids hx.1 hr hxid
  have hxu : x.user = u1 := by simpa using hx.2
  exact hu (hxr ▸ hxu)

theorem tag_queryset_other_user (u1 : Nat) (db : List TagRow) (t : TagRow)
    (hu : t.user ≠ u1) : t ∉ TagViewSet_get_queryset u1 db := by
  intro hmem
  rw [TagViewSet_get_queryset, mem_sortFilter] at hmem
  exact hu (by simpa using hmem.2)

theorem tag_get_object_other_user (u1 : Nat) (db : List TagRow) (t : TagRow)
    (ht : t ∈ db) (hu : t.user ≠ u1)
    (hids : (db.map (fun x => x.id)).Nodup) :
    TagViewSet_get_object u1 t.id db = none := by
  rw [TagViewSet_get_object]
  rw [List.find?_eq_none]
  intro x hx hpx
  rw [TagViewSet_get_queryset, mem_sortFilter] at hx
  have hxid : x.id = t.id := by simpa using hpx
  have hxt : x = t := List.inj_on_of_nodup_map hids hx.1 ht hxid
  have hxu : x.user = u1 := by simpa using hx.2
  exact hu (hxt ▸ hxu)

theorem ingredient_queryset_other_user (u1 : Nat) (db : List IngredientRow)
    (i : IngredientRow) (hu : i.user ≠ u1) :
    i ∉ IngredientViewSet_get_queryset u1 db := by
  intro hmem
  rw [IngredientViewSet_get_queryset, mem_sortFilter] at hmem
  exact hu (by simpa using hmem.2)

theorem ingredient_get_object_other_user (u1 : Nat) (db : List IngredientRow)
    (i : IngredientRow) (hi : i ∈ db) (hu : i.user ≠ u1)
    (hids : (db.map (fun x => x.id)).Nodup) :
    IngredientViewSet_get_object u1 i.id db = none := by
  rw [IngredientViewSet_get_object]
  rw [List.find?_eq_none]
  intro x hx hpx
  rw [IngredientViewSet_get_queryset, mem_sortFilter] at hx
  have hxid : x.id = i.id := by simpa using hpx
  have hxi : x = i := List.inj_on_of_nodup_map hids hx.1 hi hxid
  have hxu : x.user = u1 := by simpa using hx.2
  exact hu (hxi ▸ hxu)

/-- Claim C4: a Recipe, Tag or Ingredient row owned by user `u2` is invisible to
a different authenticated user `u1`: it never appears in `u1`'s list
results, and a detail, update or delete request for its id under `u1`'s
credentials answers 404 (not-found, never a forbidden that would disclose
existence) while leaving the stored rows untouched.  Primary keys are
assumed unique, as the database guarantees. -/
theorem claim_C4 (u1 u2 : Nat) (hne : u1 ≠ u2)
    (rdb : List Recipe) (r : Recipe) (hr : r ∈ rdb) (hru : r.user = u2)
    (hrid : (rdb.map (fun x => x.id)).Nodup)
    (tdb : List TagRow) (t : TagRow) (ht : t ∈ tdb) (htu : t.user = u2)
    (htid : (tdb.map (fun x => x.id)).Nodup)
    (idb : List IngredientRow) (i : IngredientRow) (hi : i ∈ idb)
    (hiu : i.user = u2) (hiid : (idb.map (fun x => x.id)).Nodup)
    (p : RecipeWritePayload) (nm? : Option String) :
    r ∉ RecipeViewSet_list u1 none none rdb
    ∧ RecipeViewSet_retrieve u1 r.id rdb = 404
    ∧ RecipeViewSet_update u1 r.id p rdb = (404, rdb)
    ∧ RecipeViewSet_destroy u1 r.id rdb = (404, rdb)
    ∧ t ∉ TagViewSet_list u1 none tdb rdb
    ∧ TagViewSet_retrieve u1 t.id tdb = 404
    ∧ TagViewSet_update u1 t.id nm? tdb = (404, tdb)
    ∧ TagViewSet_destroy u1 t.id tdb = (404, tdb)
    ∧ i ∉ IngredientViewSet_list u1 none idb rdb
    ∧ IngredientViewSet_retrieve u1 i.id idb = 404
    ∧ IngredientViewSet_update u1 i.id nm? idb = (404, idb)
    ∧ IngredientViewSet_destroy u1 i.id idb = (404, idb) := by
  have hru1 : r.user ≠ u1 := by rw [hru]; exact (Ne.symm hne)
  have htu1 : t.user ≠ u1 := by rw [htu]; exact (Ne.symm hne)
  have hiu1 : i.user ≠ u1 := by rw [hiu]; exact (Ne.symm hne)
  have hrn := recipe_get_object_other_user u1 rdb r hr hru1 hrid
  have htn := tag_get_object_other_user u1 tdb t ht htu1 htid
  have hin := ingredient_get_object_other_user u1 idb i hi hiu1 hiid
  refine ⟨recipe_queryset_other_user u1 rdb r hru1, ?_, ?_, ?_,
    tag_queryset_other_user u1 tdb t htu1, ?_, ?_, ?_,
    ingredient_queryset_other_user u1 idb i hiu1, ?_, ?_, ?_⟩
  · rw [RecipeViewSet_retrieve, hrn]
  · rw [RecipeViewSet_update, hrn]
  · rw [RecipeViewSet_destroy, hrn]
  · rw [TagViewSet_retrieve, htn]
  · rw [TagViewSet_update, htn]
  · rw [TagViewSet_destroy, htn]
  · rw [IngredientViewSet_retrieve, hin]
  · rw [IngredientViewSet_update, hin]
  · rw [IngredientViewSet_destroy, hin]

/-- Witness for C4: user 1 against rows owned by user 2. -/
theorem claim_C4_witness :
    RecipeViewSet_retrieve 1 5 [⟨5, 2, "R", "", 1, 100, "", [], [], none⟩] = 404
    ∧ RecipeViewSet_destroy 1 5 [⟨5, 2, "R", "", 1, 100, "", [], [], none⟩]
        = (404, [⟨5, 2, "R", "", 1, 100, "", [], [], none⟩])
    ∧ TagViewSet_retrieve 1 3 [⟨3, 2, "T"⟩] = 404
    ∧ IngredientViewSet_retrieve 1 4 [⟨4, 2, "I"⟩] = 404 := by
  have h := claim_C4 1 2 (by decide)
    [⟨5, 2, "R", "", 1, 100, "", [], [], none⟩]
    ⟨5, 2, "R", "", 1, 100, "", [], [], none⟩ (by decide) rfl (by decide)
    [⟨3, 2, "T"⟩] ⟨3, 2, "T"⟩ (by decide) rfl (by decide)
    [⟨4, 2, "I"⟩] ⟨4, 2, "I"⟩ (by decide) rfl (by decide)
    {} none
  exact ⟨h.2.1, h.2.2.2.1, h.2.2.2.2.2.1, h.2.2.2.2.2.2.2.2.2.1⟩

/-! ### Claim C1: tag reconciliation on recipe create -/

/-- Number of tag rows owned by `u` (the user's `Tag` count). -/
def countUserTags (u : Nat) (rows : List TagRow) : Nat :=
  (rows.filter (fun t => t.user = u)).length

/-- Whether a tag row owned by `u` named `n` exists in the table. -/
def tagExistsIn (u : Nat) (n : String) (rows : List TagRow) : Bool :=
  rows.any (fun t => t.user = u ∧ t.name = n)

/-- The distinct names of an embedded tag list that do not yet exist as
tags owned by `u`. -/
def newDistinctNames (u : Nat) (names : List String) (rows : List TagRow) :
    Finset String :=
  names.toFinset.filter (fun n => ¬ tagExistsIn u n rows)

theorem attachTags_cons (u : Nat) (n : String) (rest : List String)
    (acc : List Nat) (db : TagDb) :
    attachTags u (n :: rest) acc db
      = attachTags u rest (m2mAdd acc (tag_get_or_create u n db).1.id)
          (tag_get_or_create u n db).2 := rfl

theorem tagExistsIn_true_of_find (u : Nat) (n : String) (rows : List TagRow)
    (t : TagRow) (h : rows.find? (fun x => x.user = u ∧ x.name = n) = some t) :
    tagExistsIn u n rows = true := by
  have hp := List.find?_some
    (p := fun x : TagRow => decide (x.user = u ∧ x.name = n)) h
  exact List.any_eq_true.mpr ⟨t, List.mem_of_find?_eq_some h, hp⟩

theorem tagExistsIn_false_of_find (u : Nat) (n : String) (rows : List TagRow)
    (h : rows.find? (fun x => x.user = u ∧ x.name = n) = none) :
    tagExistsIn u n rows = false :=
  List.any_eq_false.mpr fun x hx => by
    simpa using List.find?_eq_none.mp h x hx

theorem tagExistsIn_append_new (u : Nat) (m n : String) (rows : List TagRow)
    (nid : Nat) :
    tagExistsIn u m (rows ++ [⟨nid, u, n⟩])
      = (tagExistsIn u m rows || decide (n = m)) := by
  rw [tagExistsIn, tagExistsIn, List.any_append]
  simp

/-- Each step of the create loop grows the user's tag count by one exactly
when the head name is new; over the whole embedded list the count grows by
the number of distinct not-yet-existing names. -/
theorem attachTags_count (u : Nat) :
    ∀ (names : List String) (acc : List Nat) (db : TagDb),
      countUserTags u (attachTags u names acc db).2.rows
        = countUserTags u db.rows + (newDistinctNames u names db.rows).card := by
  intro names
  induction names with
  | nil =>
      intro acc db
      simp [attachTags, newDistinctNames]
  | cons n rest ih =>
      intro acc db
      rw [attachTags_cons]
      cases hfind : db.rows.find? (fun x => x.user = u ∧ x.name = n) with
      | some t =>
          have hgoc : tag_get_or_create u n db = (t, db) := by
            simp only [tag_get_or_create, hfind]
          rw [hgoc, ih]
          have hex := tagExistsIn_true_of_find u n db.rows t hfind
          have hfil : newDistinctNames u (n :: rest) db.rows
              = newDistinctNames u rest db.rows := by
            rw [newDistinctNames, newDistinctNames, List.toFinset_cons,
              Finset.filter_insert, if_neg (by simp [hex])]
          rw [hfil]
      | none =>
          have hgoc : tag_get_or_create u n db
              = (⟨db.nextId, u, n⟩,
                 ⟨db.rows ++ [⟨db.nextId, u, n⟩], db.nextId + 1⟩) := by
            simp only [tag_get_or_create, hfind]
          rw [hgoc, ih]
          have hnex := tagExistsIn_false_of_find u n db.rows hfind
          have hcount : countUserTags u (db.rows ++ [⟨db.nextId, u, n⟩])
              = countUserTags u db.rows + 1 := by
            rw [countUserTags, countUserTags, List.filter_append]
            simp
          have hdnew : newDistinctNames u rest (db.rows ++ [⟨db.nextId, u, n⟩])
              = (newDistinctNames u rest db.rows).erase n := by
            ext m
            simp only [newDistinctNames, Finset.mem_filter, Finset.mem_erase,
              tagExistsIn_append_new, Bool.or_eq_true, decide_eq_true_eq]
            constructor
            · rintro ⟨hm, hnot⟩
              exact ⟨fun hmn => hnot (Or.inr hmn.symm), hm, fun hx => hnot (Or.inl hx)⟩
            · rintro ⟨hmn, hm, hnot⟩
              exact ⟨hm, fun hx => hx.elim hnot (fun hnm => hmn hnm.symm)⟩
          have hinsert : newDistinctNames u (n :: rest) db.rows
              = insert n (newDistinctNames u rest db.rows) := by
            rw [newDistinctNames, newDistinctNames, List.toFinset_cons,
              Finset.filter_insert, if_pos (by simp [hnex])]
          have hcard : ∀ (s : Finset String),
              (insert n s).card = (s.erase n).card + 1 := by
            intro s
            by_cases hmem : n ∈ s
            · rw [Finset.insert_eq_self.mpr hmem, Finset.card_erase_of_mem hmem]
              have hpos : 0 < s.card := Finset.card_pos.mpr ⟨n, hmem⟩
              omega
            · rw [Finset.card_insert_of_not_mem hmem,
                Finset.erase_eq_of_not_mem hmem]
          rw [hcount, hdnew, hinsert, hcard]
          omega

theorem m2mAdd_self (s : List Nat) (i : Nat) : i ∈ m2mAdd s i := by
  rw [m2mAdd]
  split
  · assumption
  · simp

theorem m2mAdd_mono (s : List Nat) (i a : Nat) (h : a ∈ s) : a ∈ m2mAdd s i := by
  rw [m2mAdd]
  split
  · exact h
  · exact List.mem_append_left _ h

/-- The create loop only ever appends tag rows. -/
theorem attachTags_rows_mono (u : Nat) :
    ∀ (names : List String) (acc : List Nat) (db : TagDb) (x : TagRow),
      x ∈ db.rows → x ∈ (attachTags u names acc db).2.rows := by
  intro names
  induction names with
  | nil => intro acc db x hx; exact hx
  | cons n rest ih =>
      intro acc db x hx
      rw [attachTags_cons]
      cases hfind : db.rows.find? (fun x => x.user = u ∧ x.name = n) with
      | some t =>
          have hgoc : tag_get_or_create u n db = (t, db) := by
            simp only [tag_get_or_create, hfind]
          rw [hgoc]
          exact ih _ _ x hx
      | none =>
          have hgoc : tag_get_or_create u n db
              = (⟨db.nextId, u, n⟩,
                 ⟨db.rows ++ [⟨db.nextId, u, n⟩], db.nextId + 1⟩) := by
            simp only [tag_get_or_create, hfind]
          rw [hgoc]
          exact ih _ _ x (List.mem_append_left _ hx)

/-- The create loop only ever grows the recipe's attached id set. -/
theorem attachTags_acc_mono (u : Nat) :
    ∀ (names : List String) (acc : List Nat) (db : TagDb) (a : Nat),
      a ∈ acc → a ∈ (attachTags u names acc db).1 := by
  intro names
  induction names with
  | nil => intro acc db a ha; exact ha
  | cons n rest ih =>
      intro acc db a ha
      rw [attachTags_cons]
      exact ih _ _ a (m2mAdd_mono _ _ _ ha)

/-- Every embedded name ends up attached: some row of the final table,
owned by the user and carrying that name, has its id in the final set. -/
theorem attachTags_attaches (u : Nat) :
    ∀ (names : List String) (acc : List Nat) (db : TagDb) (n : String),
      n ∈ names →
      ∃ t, t ∈ (attachTags u names acc db).2.rows
        ∧ t.id ∈ (attachTags u names acc db).1
        ∧ t.user = u ∧ t.name = n := by
  intro names
  induction names with
  | nil => intro acc db n hn; cases hn
  | cons hd rest ih =>
      intro acc db n hn
      rw [attachTags_cons]
      rcases List.mem_cons.mp hn with hhd | htl
      · subst hhd
        cases hfind : db.rows.find? (fun x => x.user = u ∧ x.name = n) with
        | some t =>
            have hgoc : tag_get_or_create u n db = (t, db) := by
              simp only [tag_get_or_create, hfind]
            have hp : t.user = u ∧ t.name = n := by
              simpa using List.find?_some hfind
            rw [hgoc]
            exact ⟨t, attachTags_rows_mono u rest _ db t
                (List.mem_of_find?_eq_some hfind),
              attachTags_acc_mono u rest _ db t.id (m2mAdd_self acc t.id),
              hp.1, hp.2⟩
        | none =>
            have hgoc : tag_get_or_create u n db
                = (⟨db.nextId, u, n⟩,
                   ⟨db.rows ++ [⟨db.nextId, u, n⟩], db.nextId + 1⟩) := by
              simp only [tag_get_or_create, hfind]
            rw [hgoc]
            refine ⟨⟨db.nextId, u, n⟩, ?_, ?_, rfl, rfl⟩
            · exact attachTags_rows_mono u rest _ _ _
                (List.mem_append_right _ (by simp))
            · exact attachTags_acc_mono u rest _ _ _ (m2mAdd_self acc _)
      · exact ih _ _ n htl

/-- Every row of the final table is either an original row or a fresh one,
owned by the user, named by an embedded name that did not exist before. -/
theorem attachTags_provenance (u : Nat) :
    ∀ (names : List String) (acc : List Nat) (db : TagDb) (t : TagRow),
      t ∈ (attachTags u names acc db).2.rows →
      t ∈ db.rows
      ∨ (t.user = u ∧ t.name ∈ names ∧ tagExistsIn u t.name db.rows = false) := by
  intro names
  induction names with
  | nil => intro acc db t htm; exact Or.inl htm
  | cons n rest ih =>
      intro acc db t htm
      rw [attachTags_cons] at htm
      cases hfind : db.rows.find? (fun x => x.user = u ∧ x.name = n) with
      | some tf =>
          have hgoc : tag_get_or_create u n db = (tf, db) := by
            simp only [tag_get_or_create, hfind]
          rw [hgoc] at htm
          rcases ih _ _ t htm with hold | ⟨hu, hmem, hnx⟩
          · exact Or.inl hold
          · exact Or.inr ⟨hu, List.mem_cons_of_mem n hmem, hnx⟩
      | none =>
          have hgoc : tag_get_or_create u n db
              = (⟨db.nextId, u, n⟩,
                 ⟨db.rows ++ [⟨db.nextId, u, n⟩], db.nextId + 1⟩) := by
            simp only [tag_get_or_create, hfind]
          rw [hgoc] at htm
          have hnex := tagExistsIn_false_of_find u n db.rows hfind
          rcases ih _ _ t htm with hold | ⟨hu, hmem, hnx⟩
          · rcases List.mem_append.mp hold with hleft | hright
            · exact Or.inl hleft
            · have ht : t = ⟨db.nextId, u, n⟩ := by simpa using hright
              subst ht
              exact Or.inr ⟨rfl, List.mem_cons_self n rest, hnex⟩
          · rw [tagExistsIn_append_new] at hnx
            rcases Bool.or_eq_false_iff.mp hnx with ⟨hnx1, _⟩
            exact Or.inr ⟨hu, List.mem_cons_of_mem n hmem, hnx1⟩

/-- Claim C1: creating a recipe with an embedded tag list raises the user's tag
count by exactly the number of distinct not-yet-existing names (existing
names are reused, duplicates inside the list collapse); every embedded name
ends up attached to the recipe through a row owned by the user; and every
row of the resulting table is an original row or a fresh one for a
previously missing embedded name owned by the authenticated user. -/
theorem claim_C1 (authUser newId : Nat) (p : RecipeWritePayload) (db : TagDb) :
    countUserTags authUser (RecipeSerializer_create authUser p newId db).2.rows
      = countUserTags authUser db.rows
        + (newDistinctNames authUser (p.tags?.getD []) db.rows).card
    ∧ (∀ n, n ∈ p.tags?.getD [] →
        ∃ t, t ∈ (RecipeSerializer_create authUser p newId db).2.rows
          ∧ t.id ∈ (RecipeSerializer_create authUser p newId db).1.tags
          ∧ t.user = authUser ∧ t.name = n)
    ∧ (∀ t, t ∈ (RecipeSerializer_create authUser p newId db).2.rows →
        t ∈ db.rows
        ∨ (t.user = authUser ∧ t.name ∈ p.tags?.getD []
            ∧ tagExistsIn authUser t.name db.rows = false)) :=
  ⟨attachTags_count authUser (p.tags?.getD []) [] db,
   fun n hn => attachTags_attaches authUser (p.tags?.getD []) [] db n hn,
   fun t ht => attachTags_provenance authUser (p.tags?.getD []) [] db t ht⟩

/-- Witness for C1: payload tags `["a", "b", "a"]` against a table already
holding tag `a` for user 1 — instantiating the count conjunct. -/
theorem claim_C1_witness :
    countUserTags 1
        (RecipeSerializer_create 1
          { title? := some "Recipe", tags? := some ["a", "b", "a"] } 9
          ⟨[⟨7, 1, "a"⟩], 8⟩).2.rows
      = countUserTags 1 [⟨7, 1, "a"⟩]
        + (newDistinctNames 1 ["a", "b", "a"] [⟨7, 1, "a"⟩]).card :=
  (claim_C1 1 9 { title? := some "Recipe", tags? := some ["a", "b", "a"] }
    ⟨[⟨7, 1, "a"⟩], 8⟩).1

end RecipeApi
